import Mathlib

/-!
Verification of the promise library (resolver state machine, microtask
scheduler, and public Promise surface).

The development contains three shallow embeddings, each translated from the
JavaScript source:

* `Core`: the resolver state machine (`src/resolver.js`) together with a
  scripted model of user thenables, used for the claims about the resolution
  procedure, terminal-state immutability and the constructor's try/catch
  (`src/promise.js`, constructor).
* `Sched`: the microtask queue and its drain cycle
  (`src/microtask/index.js`, `nextTick`).
* `Mach`: a whole-program machine: a store of resolvers, the scheduler
  queue, and deep-embedded callback closures, covering `then`,
  `makeCallback`, the static combinators `resolve` / `reject` / `all` /
  `race`, and the notification pipeline.

Ghost fields (`notified`, `settled`, `calls`, `uncaught`, cycle indices in
`Sched`) record events for the statements of the theorems; they are never
read by the embedded code itself.
-/

/-- Resolver states, mirroring the string-valued `state` property
(`'pending' | 'fulfilled' | 'rejected'`) of `src/resolver.js`. -/
inductive St where
  | pending : St
  | fulfilled : St
  | rejected : St
deriving DecidableEq, Repr

namespace Core

mutual

/-- JavaScript values as seen by `Resolver.prototype.resolve`:
`nullv`/`undef` are the falsy non-object values, `prim` stands for the
remaining primitives (numbers, strings, booleans: neither objects nor
functions), and `obj` is an object (or function) characterised by what its
`then` member does. -/
inductive AVal where
  | nullv : AVal
  | undef : AVal
  | prim : Int → AVal
  | obj : ThenProp → AVal

/-- Shape of an object's `then` member: absent / not callable
(`noThen`), a member whose property read throws (`getterThrow`), or a
callable whose body is the given script (`fn`). -/
inductive ThenProp where
  | noThen : ThenProp
  | getterThrow : AVal → ThenProp
  | fn : List Act → ThenProp

/-- One step of a thenable's `then` body: call the first continuation
(inner-resolve) with a value, call the second continuation (inner-reject)
with a reason, or throw. Steps after a throw are unreachable. -/
inductive Act where
  | callRes : AVal → Act
  | callRej : AVal → Act
  | athrow : AVal → Act

end

/-- Resolver record, from the `Resolver` constructor in `src/resolver.js`.
`callbacks` / `errbacks` are the two subscriber lists (`null` is `none`);
the subscribers themselves are opaque at this level and identified by
numbers. `notified` is a ghost log of the `(list, value)` arguments of each
`notify` call, and `settled` is a ghost count of pending-to-terminal
transitions. -/
structure RS where
  callbacks : Option (List Nat)
  errbacks : Option (List Nat)
  state : St
  value : AVal
  chained : Bool
  notified : List (Option (List Nat) × AVal)
  settled : Nat

/-- Initial resolver state (the `Resolver` constructor body). -/
def RS.init : RS :=
  ⟨some [], some [], .pending, .nullv, false, [], 0⟩

/-- `Resolver.prototype.fulfilled`: set state and value if still pending,
then (if fulfilled) notify the current callback list, reset it, and null
the errbacks list. -/
def fulfilledA (r : RS) (v : AVal) : RS :=
  let r1 := if r.state = .pending then
    { r with value := v, state := .fulfilled, settled := r.settled + 1 }
  else r
  if r1.state = .fulfilled then
    { r1 with notified := r1.notified ++ [(r1.callbacks, r1.value)],
              callbacks := some [], errbacks := none }
  else r1

/-- `Resolver.prototype.rejected`: the mirror image of `fulfilled`. -/
def rejectedA (r : RS) (v : AVal) : RS :=
  let r1 := if r.state = .pending then
    { r with value := v, state := .rejected, settled := r.settled + 1 }
  else r
  if r1.state = .rejected then
    { r1 with notified := r1.notified ++ [(r1.errbacks, r1.value)],
              callbacks := none, errbacks := some [] }
  else r1

/-- `Resolver.prototype.reject`: `rejected`, but only from pending. -/
def rejectA (r : RS) (v : AVal) : RS :=
  if r.state = .pending then rejectedA r v else r

mutual

/-- `Resolver.prototype.resolve`. Non-objects are fulfilled directly. For
an object, the `then` member is read inside try/catch: a throwing read
rejects; a non-callable member fulfills with the object itself; a callable
member is invoked with the two one-shot-latched continuations
(`runActs` with latch initially unset). An exception thrown by the `then`
body rejects only if the latch has not fired. -/
def resolveA (r : RS) (v : AVal) : RS :=
  if r.state = .pending then
    match v with
    | .nullv => fulfilledA r .nullv
    | .undef => fulfilledA r .undef
    | .prim n => fulfilledA r (.prim n)
    | .obj tp =>
      match tp with
      | .getterThrow e => rejectedA r e
      | .noThen => fulfilledA r (.obj .noThen)
      | .fn acts =>
        let res := runActs r false acts
        match res.2.2 with
        | some e => if res.2.1 = false then rejectedA res.1 e else res.1
        | none => res.1
  else r
termination_by sizeOf v

/-- Runs a thenable's `then` body against the pair of latched
continuations from `resolve`: `callRes` re-enters `resolve` itself (not a
direct fulfill) and `callRej` calls `reject`, each only when the shared
latch `u` is still unset; a throw aborts the body and is reported to the
caller together with the final latch value. -/
def runActs (r : RS) (u : Bool) (acts : List Act) : RS × Bool × Option AVal :=
  match acts with
  | [] => (r, u, none)
  | .callRes v :: rest =>
    if u then runActs r u rest else runActs (resolveA r v) true rest
  | .callRej e :: rest =>
    if u then runActs r u rest else runActs (rejectA r e) true rest
  | .athrow e :: _ => (r, u, some e)
termination_by sizeOf acts

end

/-- One synchronous step of an executor passed to `new Promise(executor)`:
call the `resolve` closure, call the `reject` closure, or throw (aborting
the executor's body). -/
inductive ExecAct where
  | callRes : AVal → ExecAct
  | callRej : AVal → ExecAct
  | ethrow : AVal → ExecAct

/-- Runs an executor body over the resolver, stopping at the first throw
and reporting the thrown value. -/
def runExec (r : RS) (acts : List ExecAct) : RS × Option AVal :=
  match acts with
  | [] => (r, none)
  | .callRes v :: rest => runExec (resolveA r v) rest
  | .callRej e :: rest => runExec (rejectA r e) rest
  | .ethrow e :: _ => (r, some e)

/-- The `Promise` constructor of `src/promise.js`: allocate a fresh
resolver, run the executor inside try/catch, and convert a thrown value
into `resolver.reject(error)`. The function is total: no exception
propagates out of the constructor. -/
def newPromiseA (acts : List ExecAct) : RS :=
  let res := runExec RS.init acts
  match res.2 with
  | some e => rejectA res.1 e
  | none => res.1

/-- Values that are not thenables: not an object exposing a callable
`then`, and not an object whose `then` read throws. -/
def nonThenable : AVal → Bool
  | .obj (.fn _) => false
  | .obj (.getterThrow _) => false
  | _ => true

/-- First thrown value of a thenable's `then` body. -/
def firstThrow : List Act → Option AVal
  | [] => none
  | .athrow e :: _ => some e
  | .callRes _ :: rest => firstThrow rest
  | .callRej _ :: rest => firstThrow rest

/-- A nested thenable chain of depth `n` around the innermost value `v`:
each layer's `then` synchronously calls inner-resolve with the next
layer. -/
def nestRes : Nat → AVal → AVal
  | 0, v => v
  | n + 1, v => .obj (.fn [.callRes (nestRes n v)])

end Core

namespace Sched

/-- A queued task together with what its callback does when run: `leaf`
just runs (recorded by its numeric id); `spawn` runs and additionally
enqueues another task via `microtask` from inside the drain cycle. -/
inductive STask where
  | leaf : Nat → STask
  | spawn : Nat → STask → STask

/-- Identifier of a task, for the ghost execution log. -/
def STask.tid : STask → Nat
  | .leaf i => i
  | .spawn i _ => i

/-- Scheduler state: the FIFO queue of `src/microtask/index.js` plus a
ghost log of executed tasks as `(cycle, id)` pairs in execution order. -/
structure SchedSt where
  queue : List STask
  log : List (Nat × Nat)

/-- Runs one task (`Task.prototype.run`): records its execution in the
ghost log with the current cycle index `c`; a `spawn` task additionally
appends its child to the live queue (the `microtask` enqueue). -/
def runSTask (c : Nat) (s : SchedSt) (t : STask) : SchedSt :=
  match t with
  | .leaf i => { s with log := s.log ++ [(c, i)] }
  | .spawn i child =>
    { s with log := s.log ++ [(c, i)], queue := s.queue ++ [child] }

/-- `nextTick` of `src/microtask/index.js`: swap the queue for an empty
one first, then run each task of the captured buffer in order. `c` is the
ghost index of this drain cycle. -/
def nextTick (c : Nat) (s : SchedSt) : SchedSt :=
  let buffer := s.queue
  let s1 := { s with queue := ([] : List STask) }
  buffer.foldl (runSTask c) s1

/-- Children spawned by a task list, in order: the tasks that will form
the next cycle's queue. -/
def spawnedOf : List STask → List STask
  | [] => []
  | .leaf _ :: rest => spawnedOf rest
  | .spawn _ child :: rest => child :: spawnedOf rest

end Sched

namespace Mach

/-- JavaScript values for the whole-program machine. `base` covers the
primitive non-thenable payloads, `arr` is an array (an object without a
callable `then`), `typeErr` is a `TypeError` object carrying its message,
and `promise` is a reference to the promise with the given id (an object
whose `then` member is `Promise.prototype.then`). -/
inductive JVal where
  | nullv : JVal
  | undef : JVal
  | base : Int → JVal
  | arr : List JVal → JVal
  | typeErr : String → JVal
  | promise : Nat → JVal

/-- Behaviour of a user handler passed to `then`: return a fixed value,
return the argument unchanged, or throw. Returning `JVal.promise p` models
a handler returning the promise object `p` itself. -/
inductive HBeh where
  | ret : JVal → HBeh
  | retArg : HBeh
  | thr : JVal → HBeh

/-- Deep-embedded callback closures, one constructor per closure shape of
the source:
* `rawResolve` / `rawReject`: the executor closures
  `function(value){ resolver.resolve(value) }` and its reject mirror from
  the `Promise` constructor;
* `wrapped p hid h`: `makeCallback(promise, resolve, reject, callback)`
  around the user handler `h` (ghost id `hid`), targeting promise and
  resolver `p`;
* `wrappedInner p inner`: `makeCallback` around one of the library's own
  function-valued continuations (`then` wraps every callable argument);
* `allDone aid idx`: the `oneDone(index)` closure of `Promise.all`,
  writing into the shared results/remaining record `aid`;
* `innerRes` / `innerRej`: the pair of one-shot-latched continuations a
  `resolve` call hands to a thenable's `then` (latch id, resolver id). -/
inductive CB where
  | rawResolve : Nat → CB
  | rawReject : Nat → CB
  | wrapped : Nat → Nat → HBeh → CB
  | wrappedInner : Nat → CB → CB
  | allDone : Nat → Nat → CB
  | innerRes : Nat → Nat → CB
  | innerRej : Nat → Nat → CB

/-- Resolver record of `src/resolver.js` with deep-embedded subscriber
closures. -/
structure RState where
  callbacks : Option (List CB)
  errbacks : Option (List CB)
  state : St
  value : JVal
  chained : Bool

/-- Initial resolver (the `Resolver` constructor body). -/
def RState.init : RState :=
  ⟨some [], some [], .pending, .nullv, false⟩

/-- A queued microtask. The only microtask the core enqueues is the
`notify` closure, which captures the subscriber list and settled value and
reads `self` (here `rid`) when it runs. -/
structure Task where
  cbs : List CB
  value : JVal
  rid : Nat

/-- Shared state of one `Promise.all` call: the `results` array cells, the
`remaining` count (an integer, mirroring the JavaScript `remaining--` /
`if (!remaining)` pair), and the resolver of the aggregate promise. -/
structure AllState where
  cells : List (Option JVal)
  remaining : Int
  rid : Nat

/-- Whole-program state: the store of resolvers (a promise and its
resolver share one index), the scheduler queue, the one-shot latches
allocated by `resolve`, the `Promise.all` records, and two ghost logs:
`calls` (one `(handler id, argument)` entry per user-handler invocation)
and `uncaught` (arguments of `printError` reports). -/
structure World where
  resolvers : List RState
  queue : List Task
  latches : List Bool
  alls : List AllState
  calls : List (Nat × JVal)
  uncaught : List JVal

/-- Empty initial world. -/
def World.init : World :=
  ⟨[], [], [], [], [], []⟩

/-- Reads a resolver from the store. -/
def getR (w : World) (rid : Nat) : RState :=
  w.resolvers.getD rid RState.init

/-- Writes a resolver back to the store. -/
def setR (w : World) (rid : Nat) (r : RState) : World :=
  { w with resolvers := w.resolvers.set rid r }

/-- `Resolver.prototype.fulfilled`: set state/value if pending; if now
fulfilled, hand the current callback list and value to `notify` (which
enqueues one microtask capturing them together with `this`), reset the
callback list and null the errbacks list. -/
def fulfilledW (w : World) (rid : Nat) (v : JVal) : World :=
  let r := getR w rid
  let r1 := if r.state = .pending then { r with value := v, state := .fulfilled } else r
  if r1.state = .fulfilled then
    let w1 := { w with queue := w.queue ++ [⟨r1.callbacks.getD [], r1.value, rid⟩] }
    setR w1 rid { r1 with callbacks := some [], errbacks := none }
  else setR w rid r1

/-- `Resolver.prototype.rejected`: the mirror image of `fulfilled`. -/
def rejectedW (w : World) (rid : Nat) (v : JVal) : World :=
  let r := getR w rid
  let r1 := if r.state = .pending then { r with value := v, state := .rejected } else r
  if r1.state = .rejected then
    let w1 := { w with queue := w.queue ++ [⟨r1.errbacks.getD [], r1.value, rid⟩] }
    setR w1 rid { r1 with callbacks := none, errbacks := some [] }
  else setR w rid r1

/-- `Resolver.prototype.reject`: `rejected`, but only from pending. -/
def rejectW (w : World) (rid : Nat) (v : JVal) : World :=
  if (getR w rid).state = .pending then rejectedW w rid v else w

/-- `Resolver.prototype.addCallbacks`: push onto whichever lists still
exist, record `chained`, and if the resolver is already terminal re-invoke
`fulfilled`/`rejected` with the stored value so the new subscriber gets
notified. -/
def addCallbacksW (w : World) (rid : Nat) (cb eb : CB) : World :=
  let r := getR w rid
  let chained := r.callbacks.isSome || r.errbacks.isSome
  let r1 := { r with callbacks := r.callbacks.map (fun l => l ++ [cb]),
                     errbacks := r.errbacks.map (fun l => l ++ [eb]) }
  if chained then
    let w1 := setR w rid { r1 with chained := true }
    match r1.state with
    | .fulfilled => fulfilledW w1 rid r1.value
    | .rejected => rejectedW w1 rid r1.value
    | .pending => w1
  else setR w rid r1

/-- An argument of `Promise.prototype.then`: omitted / not callable
(`nofn`), a user handler (with its ghost id), or one of the library's own
function-valued continuations. -/
inductive ThenArg where
  | nofn : ThenArg
  | user : Nat → HBeh → ThenArg
  | native : CB → ThenArg

/-- The continuation `then` registers for one branch: a callable argument
is wrapped by `makeCallback` (identity-checking against the new promise
`p` and targeting its resolver), a non-callable argument falls through to
the new promise's raw `resolve`/`reject` closure (`raw`). -/
def mkCB (p : Nat) (a : ThenArg) (raw : CB) : CB :=
  match a with
  | .nofn => raw
  | .user hid h => .wrapped p hid h
  | .native c => .wrappedInner p c

/-- `Promise.prototype.then`: allocate a fresh Promise/Resolver pair (the
inner `new Promise` whose executor just captures `resolve`/`reject`),
register the two continuations via `addCallbacks` on `this` resolver, and
return the new promise id immediately. -/
def thenW (w : World) (pid : Nat) (onF onR : ThenArg) : World × Nat :=
  let p := w.resolvers.length
  let w1 := { w with resolvers := w.resolvers ++ [RState.init] }
  (addCallbacksW w1 pid (mkCB p onF (.rawResolve p)) (mkCB p onR (.rawReject p)), p)

/-- `Resolver.prototype.resolve`: non-thenable values (including arrays
and error objects, whose `then` member is not callable) are fulfilled
directly; a promise value is a thenable, so its `then` is invoked with a
freshly allocated one-shot latch and the `innerRes`/`innerRej`
continuation pair. -/
def resolveW (w : World) (rid : Nat) (v : JVal) : World :=
  if (getR w rid).state = .pending then
    match v with
    | .promise pid =>
      let lid := w.latches.length
      let w1 := { w with latches := w.latches ++ [false] }
      (thenW w1 pid (.native (.innerRes lid rid)) (.native (.innerRej lid rid))).1
    | v0 => fulfilledW w rid v0
  else w

/-- `Promise.resolve`: return the value unchanged if it is already a
promise, otherwise wrap it in a new promise settled via `resolve`. -/
def promiseResolveW (w : World) (v : JVal) : World × Nat :=
  match v with
  | .promise pid => (w, pid)
  | v0 =>
    let p := w.resolvers.length
    let w1 := { w with resolvers := w.resolvers ++ [RState.init] }
    (resolveW w1 p v0, p)

/-- `Promise.reject`: a new promise whose executor calls `reject`
directly (no thenable flattening on reasons). -/
def promiseRejectW (w : World) (v : JVal) : World × Nat :=
  let p := w.resolvers.length
  let w1 := { w with resolvers := w.resolvers ++ [RState.init] }
  (rejectW w1 p v, p)

/-- One iteration of the `Promise.all` subscription loop:
`Promise.resolve(iterable[i]).then(oneDone(i), reject)`, where `aid` is
the shared results/remaining record and `p` the aggregate's resolver. -/
def allStepW (aid p : Nat) (w : World) (ix : Nat × JVal) : World :=
  let res := promiseResolveW w ix.2
  (thenW res.1 res.2 (.native (.allDone aid ix.1)) (.native (.rawReject p))).1

/-- `Promise.all`: reject a non-array argument with a `TypeError`; resolve
an empty array immediately with the (empty) results array; otherwise wrap
every element through `Promise.resolve`, subscribe `oneDone(i)` and the
aggregate's `reject` to each, and track the shared results/remaining
record. -/
def promiseAllW (w : World) (v : JVal) : World × Nat :=
  let p := w.resolvers.length
  let w1 := { w with resolvers := w.resolvers ++ [RState.init] }
  match v with
  | .arr xs =>
    if xs.length < 1 then (resolveW w1 p (.arr []), p)
    else
      let aid := w1.alls.length
      let w2 := { w1 with alls := w1.alls ++ [⟨List.replicate xs.length none, (xs.length : Int), p⟩] }
      (xs.enum.foldl (allStepW aid p) w2, p)
  | _ => (rejectW w1 p (.typeErr "Promise.all expects an array of values or promises"), p)

/-- `Promise.race`: reject a non-array argument with a `TypeError`;
otherwise wrap every element through `Promise.resolve` and subscribe the
aggregate's own `resolve`/`reject` to each (duplicate settlements are
absorbed by the terminal-state guard). An empty array subscribes to
nothing. -/
def promiseRaceW (w : World) (v : JVal) : World × Nat :=
  let p := w.resolvers.length
  let w1 := { w with resolvers := w.resolvers ++ [RState.init] }
  match v with
  | .arr xs =>
    (xs.foldl (fun w x =>
      let res := promiseResolveW w x
      (thenW res.1 res.2 (.native (.rawResolve p)) (.native (.rawReject p))).1) w1, p)
  | _ => (rejectW w1 p (.typeErr "Promise.race expects an array of values or promises"), p)

/-- Reference identity test `result === promise` of `makeCallback`: only
the promise object with the same id is identical to the new promise. -/
def isSelf (v : JVal) (p : Nat) : Bool :=
  match v with
  | .promise q => q == p
  | _ => false

/-- Runs one callback closure on an argument.
* the raw executor closures call `resolve`/`reject`;
* `wrapped` is `makeCallback`: run the user handler (ghost-logged); a
  throw rejects the derived promise, a result identical to the derived
  promise rejects it with the self-resolution `TypeError`, any other
  result is passed to `resolve`;
* `wrappedInner` is `makeCallback` around a library continuation, which
  never throws and returns `undefined`, so after running it the derived
  promise is resolved with `undefined`;
* `allDone` writes the fulfillment value into its cell, decrements
  `remaining`, and resolves the aggregate with the results array when the
  count reaches zero;
* `innerRes` / `innerRej` fire only if their one-shot latch is unset, and
  re-enter `resolve` (respectively `reject`). -/
def runCB (w : World) (cb : CB) (arg : JVal) : World :=
  match cb with
  | .rawResolve rid => resolveW w rid arg
  | .rawReject rid => rejectW w rid arg
  | .wrapped p hid h =>
    let w1 := { w with calls := w.calls ++ [(hid, arg)] }
    match h with
    | .thr e => rejectW w1 p e
    | .ret v =>
      if isSelf v p then rejectW w1 p (.typeErr "Cannot resolve a promise with itself")
      else resolveW w1 p v
    | .retArg =>
      if isSelf arg p then rejectW w1 p (.typeErr "Cannot resolve a promise with itself")
      else resolveW w1 p arg
  | .wrappedInner p inner =>
    let w1 := runCB w inner arg
    resolveW w1 p .undef
  | .allDone aid idx =>
    let st := w.alls.getD aid ⟨[], 0, 0⟩
    let st1 := { st with cells := st.cells.set idx (some arg),
                         remaining := st.remaining - 1 }
    let w1 := { w with alls := w.alls.set aid st1 }
    if st1.remaining = 0 then
      resolveW w1 st1.rid (.arr (st1.cells.map (fun c => c.getD .undef)))
    else w1
  | .innerRes lid rid =>
    if w.latches.getD lid true then w
    else resolveW { w with latches := w.latches.set lid true } rid arg
  | .innerRej lid rid =>
    if w.latches.getD lid true then w
    else rejectW { w with latches := w.latches.set lid true } rid arg

/-- Runs one queued `notify` microtask: invoke each captured subscriber in
registration order with the captured value, then report an unhandled
rejection if the resolver was never chained and is rejected. -/
def runTask (w : World) (t : Task) : World :=
  let w1 := t.cbs.foldl (fun w cb => runCB w cb t.value) w
  let r := getR w1 t.rid
  if !r.chained && r.state = .rejected then
    { w1 with uncaught := w1.uncaught ++ [r.value] }
  else w1

/-- One drain cycle (`nextTick`): swap the queue for an empty one, then
run each captured task in order; tasks enqueued while running land in the
fresh queue, i.e. in a strictly later cycle. -/
def drainW (w : World) : World :=
  let buffer := w.queue
  let w1 := { w with queue := ([] : List Task) }
  buffer.foldl runTask w1

/-- A bare `new Promise(function(){})`: a fresh pending Promise/Resolver
pair whose executor does nothing (settled later through external calls to
the resolver, as a deferred). -/
def newPromiseW (w : World) : World × Nat :=
  ({ w with resolvers := w.resolvers ++ [RState.init] }, w.resolvers.length)

/-- Store contribution of the `Promise.all` subscription loop for a list
of base-value elements: per element, the `Promise.resolve` wrapper
(settled, already re-notified, its callback list captured and reset) and
the pending promise its `then` call produced. -/
def elemResolvers : List Int → List RState
  | [] => []
  | x :: rest =>
    ⟨some [], none, .fulfilled, .base x, true⟩ :: RState.init :: elemResolvers rest

/-- Queue contribution of the `Promise.all` subscription loop for
base-value elements starting at element index `k` with next free store
index `p0`: per element, the settlement task of the `Promise.resolve`
wrapper (captured before `then` subscribed, hence empty) and the
re-notification task carrying the wrapped `oneDone(i)` subscriber. -/
def elemTasks (aid k p0 : Nat) : List Int → List Task
  | [] => []
  | x :: rest =>
    ⟨[], .base x, p0⟩
      :: ⟨[.wrappedInner (p0 + 1) (.allDone aid k)], .base x, p0⟩
      :: elemTasks aid (k + 1) (p0 + 2) rest

/-- Callback closures that contain no user-handler wrapper
(`CB.wrapped`): running such a closure never appends to the ghost `calls`
log, because only a user handler invocation is logged. -/
def CB.userFree : CB → Bool
  | .wrapped _ _ _ => false
  | .wrappedInner _ c => c.userFree
  | .rawResolve _ => true
  | .rawReject _ => true
  | .allDone _ _ => true
  | .innerRes _ _ => true
  | .innerRej _ _ => true

/-- Resolver whose stored subscriber lists are user-free. -/
def RState.userFree (r : RState) : Bool :=
  (r.callbacks.getD []).all CB.userFree && (r.errbacks.getD []).all CB.userFree

/-- Queued task whose captured subscriber list is user-free. -/
def Task.userFree (t : Task) : Bool :=
  t.cbs.all CB.userFree

/-- World in which no stored callback (in any resolver list or queued
task) mentions a user handler: from such a world, no drain cycle can ever
invoke one. -/
def World.UserFree (w : World) : Prop :=
  (∀ r ∈ w.resolvers, r.userFree = true) ∧ (∀ t ∈ w.queue, t.userFree = true)

/-- `then` argument that introduces no user handler. -/
def ThenArg.userFree : ThenArg → Bool
  | .nofn => true
  | .user _ _ => false
  | .native c => c.userFree

/-- Scenario world for claim C5: `Promise.resolve(v).then(f)` with `f` a
user handler of behaviour `h` and ghost id `hid`. -/
def c5World (v : Int) (hid : Nat) (h : HBeh) : World :=
  let res := promiseResolveW World.init (.base v)
  (thenW res.1 res.2 (.user hid h) .nofn).1

/-- Scenario world for claim C8: `Promise.resolve(v).then(f)` where `f`
returns the very promise this `then` call produced (store index 1). -/
def c8World (v : Int) (hid : Nat) : World × Nat :=
  let res := promiseResolveW World.init (.base v)
  thenW res.1 res.2 (.user hid (.ret (.promise 1))) .nofn

/-- Scenario world for claim C9: `Promise.race([])`. -/
def c9World : World × Nat :=
  promiseRaceW World.init (.arr [])

/-- Scenario for claim C7, completion order: `Promise.all([d, 2])` where
`d` is a deferred promise (store index 0) settled with 7 only after the
first drain cycle has already delivered element 1; the aggregate is store
index 1. -/
def c7dWorld : World :=
  let a := newPromiseW World.init
  let b := promiseAllW a.1 (.arr [.promise 0, .base 2])
  let c := drainW b.1
  let d := resolveW c 0 (.base 7)
  drainW d

/-- Scenario for claim C7, rejection: `Promise.all([r, 3])` where `r` is
`Promise.reject(9)` (store index 0); the aggregate is store index 1. -/
def c7eWorld : World :=
  let a := promiseRejectW World.init (.base 9)
  let b := promiseAllW a.1 (.arr [.promise 0, .base 3])
  drainW b.1

end Mach

namespace Core

theorem resolveA_not_pending (r : RS) (v : AVal) (h : r.state ≠ .pending) :
    resolveA r v = r := by
  rw [resolveA.eq_def]
  simp [h]

/-- Once the one-shot latch has fired, the rest of the `then` body has no
effect on the resolver: later continuation calls are ignored, and only a
throw is still observable to the caller (where it is then swallowed). -/
theorem runActs_latched (r : RS) (acts : List Act) :
    runActs r true acts = (r, true, firstThrow acts) := by
  induction acts with
  | nil => simp [runActs, firstThrow]
  | cons a rest ih =>
    cases a with
    | callRes v => simp [runActs, firstThrow, ih]
    | callRej e => simp [runActs, firstThrow, ih]
    | athrow e => simp [runActs, firstThrow]

/-- A `then` body whose first action is inner-resolve behaves exactly like
`resolve` of the passed value; everything after the first action (further
continuation calls, a throw) is absorbed by the latch. -/
theorem resolveA_first_res (r : RS) (v : AVal) (acts : List Act)
    (h : r.state = .pending) :
    resolveA r (.obj (.fn (.callRes v :: acts))) = resolveA r v := by
  rw [resolveA.eq_def]
  simp [h, runActs, runActs_latched]
  cases hft : firstThrow acts <;> simp

/-- A `then` body whose first action is inner-reject behaves exactly like
`reject` of the passed reason. -/
theorem resolveA_first_rej (r : RS) (e : AVal) (acts : List Act)
    (h : r.state = .pending) :
    resolveA r (.obj (.fn (.callRej e :: acts))) = rejectA r e := by
  rw [resolveA.eq_def]
  simp [h, runActs, runActs_latched]
  cases hft : firstThrow acts <;> simp [rejectA, h, rejectedA]

/-- Unwrapping one layer of a nested thenable re-enters `resolve` with the
next layer, so a chain of any finite depth resolves like its innermost
value. -/
theorem resolveA_nest (r : RS) (n : Nat) (v : AVal) :
    resolveA r (nestRes n v) = resolveA r v := by
  induction n with
  | zero => rfl
  | succ n ih =>
    by_cases h : r.state = .pending
    · rw [nestRes, resolveA_first_res r _ _ h, ih]
    · rw [resolveA_not_pending _ _ h, resolveA_not_pending _ _ h]

/-- Resolving a pending resolver with a non-thenable settles it directly
to fulfilled with that value. -/
theorem resolveA_base (r : RS) (v : AVal) (hp : r.state = .pending)
    (hv : nonThenable v = true) : resolveA r v = fulfilledA r v := by
  rw [resolveA.eq_def]
  cases v with
  | nullv => simp [hp]
  | undef => simp [hp]
  | prim n => simp [hp]
  | obj tp => cases tp with
    | noThen => simp [hp]
    | getterThrow e => simp [nonThenable] at hv
    | fn acts => simp [nonThenable] at hv

/-- Claim C2: for every pending resolver, `resolve` of a thenable invokes
its `then` with two continuations guarded by a one-shot latch, so only the
first of inner-resolve / inner-reject takes effect and later actions
(including throws) are absorbed; inner-resolve re-enters `resolve` itself,
so a nested thenable chain of any finite depth settles the resolver
exactly once (ghost `settled` count goes up by exactly one), fulfilled
with the innermost non-thenable value, or rejected with the innermost
reason; a thenable that calls neither continuation leaves the resolver
pending, so a later external settlement still takes effect. -/
theorem claim_C2 (r : RS) (n : Nat) (x : Int) (e v : AVal) (acts : List Act)
    (hp : r.state = .pending) :
    ((resolveA r (nestRes n (.prim x))).state = .fulfilled
      ∧ (resolveA r (nestRes n (.prim x))).value = .prim x
      ∧ (resolveA r (nestRes n (.prim x))).settled = r.settled + 1)
    ∧ ((resolveA r (nestRes n (.obj (.fn [.callRej e])))).state = .rejected
      ∧ (resolveA r (nestRes n (.obj (.fn [.callRej e])))).value = e
      ∧ (resolveA r (nestRes n (.obj (.fn [.callRej e])))).settled = r.settled + 1)
    ∧ resolveA r (.obj (.fn (.callRes v :: acts))) = resolveA r v
    ∧ resolveA r (.obj (.fn (.callRej e :: acts))) = rejectA r e
    ∧ resolveA r (.obj (.fn [])) = r := by
  refine ⟨?_, ?_, resolveA_first_res r v acts hp, resolveA_first_rej r e acts hp, ?_⟩
  · rw [resolveA_nest, resolveA.eq_def]
    simp [hp, fulfilledA]
  · rw [resolveA_nest, resolveA_first_rej r e [] hp]
    simp [rejectA, hp, rejectedA]
  · rw [resolveA.eq_def]
    simp [hp, runActs]

/-- Witness for claim C2 at depth 2 and innermost value 5. -/
theorem claim_C2_witness :
    (resolveA RS.init (nestRes 2 (.prim 5))).state = .fulfilled :=
  (claim_C2 RS.init 2 5 (.prim 9) (.prim 1) [] rfl).1.1

/-- Claim C4: once a resolver is terminal, `fulfilled`, `rejected`,
`resolve` and `reject` leave its state, stored value and ghost settle
count unchanged (`resolve`/`reject` are complete no-ops); and upon a
terminal notification the notified list is cleared (fulfill resets
`callbacks` to `[]` and nulls `errbacks`; reject mirrors this), so a
repeated terminal call hands the fresh empty list — never the original
list instance — to `notify`. -/
theorem claim_C4 (r rp : RS) (v w : AVal)
    (hterm : r.state ≠ .pending) (hpend : rp.state = .pending) :
    ((fulfilledA r v).state = r.state ∧ (fulfilledA r v).value = r.value
      ∧ (fulfilledA r v).settled = r.settled)
    ∧ ((rejectedA r v).state = r.state ∧ (rejectedA r v).value = r.value
      ∧ (rejectedA r v).settled = r.settled)
    ∧ resolveA r v = r
    ∧ rejectA r v = r
    ∧ ((fulfilledA rp v).callbacks = some [] ∧ (fulfilledA rp v).errbacks = none)
    ∧ ((rejectedA rp v).callbacks = none ∧ (rejectedA rp v).errbacks = some [])
    ∧ (fulfilledA rp v).notified = rp.notified ++ [(rp.callbacks, v)]
    ∧ (fulfilledA (fulfilledA rp v) w).notified
        = rp.notified ++ [(rp.callbacks, v), (some [], v)] := by
  refine ⟨?_, ?_, resolveA_not_pending r v hterm, by simp [rejectA, hterm],
    by simp [fulfilledA, hpend], by simp [rejectedA, hpend],
    by simp [fulfilledA, hpend], by simp [fulfilledA, hpend]⟩
  · simp only [fulfilledA, if_neg hterm]
    split <;> simp
  · simp only [rejectedA, if_neg hterm]
    split <;> simp

/-- Witness for claim C4: on an already fulfilled resolver, `resolve` is a
no-op. -/
theorem claim_C4_witness :
    resolveA (fulfilledA RS.init (.prim 0)) (.prim 5)
      = fulfilledA RS.init (.prim 0) :=
  (claim_C4 (fulfilledA RS.init (.prim 0)) RS.init (.prim 5) (.prim 6)
    (by decide) rfl).2.2.1

/-- Counterexample to claim C6 as stated: the executor
`function(resolve){ resolve(1); throw 9 }` throws synchronously, yet the
constructed promise is fulfilled with 1, not rejected with 9. -/
theorem claim_C6_counterexample :
    (newPromiseA [.callRes (.prim 1), .ethrow (.prim 9)]).state = .fulfilled
    ∧ (newPromiseA [.callRes (.prim 1), .ethrow (.prim 9)]).value = .prim 1 := by
  constructor <;>
    simp [newPromiseA, runExec, resolveA, fulfilledA, rejectA, RS.init]

theorem runExec_append (pre rest : List ExecAct) (r : RS)
    (h : (runExec r pre).2 = none) :
    runExec r (pre ++ rest) = runExec (runExec r pre).1 rest := by
  induction pre generalizing r with
  | nil => simp [runExec]
  | cons a pre ih =>
    cases a with
    | callRes v =>
      simp only [runExec, List.cons_append] at h ⊢
      exact ih _ h
    | callRej e =>
      simp only [runExec, List.cons_append] at h ⊢
      exact ih _ h
    | ethrow e => simp [runExec] at h

/-- Claim C6 (amended): for every executor that throws synchronously
while the promise is still unsettled, the constructor catches the
exception and produces a promise rejected with the thrown value; the
catch consumes the exception, so it never propagates out of the (total)
constructor. -/
theorem claim_C6_amended (pre : List ExecAct) (e : AVal)
    (h1 : (runExec RS.init pre).2 = none)
    (h2 : (runExec RS.init pre).1.state = .pending) :
    (newPromiseA (pre ++ [.ethrow e])).state = .rejected
    ∧ (newPromiseA (pre ++ [.ethrow e])).value = e := by
  simp [newPromiseA, runExec_append pre [.ethrow e] RS.init h1, runExec,
    rejectA, h2, rejectedA]

/-- Witness for the amended claim C6: a bare `throw 4` executor. -/
theorem claim_C6_amended_witness :
    (newPromiseA ([] ++ [.ethrow (.prim 4)])).state = .rejected :=
  (claim_C6_amended [] (.prim 4) rfl rfl).1

/-- Claim C10: an executor that first resolves with a non-thenable value
and then throws leaves the promise fulfilled with that value: the catch
routes the thrown value into `reject`, whose terminal-state guard makes it
a no-op, so state, value and ghost settle count are untouched. -/
theorem claim_C10 (v e : AVal) (h : nonThenable v = true) :
    (newPromiseA [.callRes v, .ethrow e]).state = .fulfilled
    ∧ (newPromiseA [.callRes v, .ethrow e]).value = v
    ∧ (newPromiseA [.callRes v, .ethrow e]).settled = 1 := by
  have hres : resolveA RS.init v = fulfilledA RS.init v :=
    resolveA_base RS.init v rfl h
  simp only [newPromiseA, runExec, hres]
  simp [fulfilledA, rejectA, RS.init]

/-- Witness for claim C10 with value 3 and thrown value 7. -/
theorem claim_C10_witness :
    (newPromiseA [.callRes (.prim 3), .ethrow (.prim 7)]).state = .fulfilled :=
  (claim_C10 (.prim 3) (.prim 7) rfl).1

end Core

namespace Sched

/-- Running a buffer of tasks appends their executions (all bearing the
current cycle index) to the log and their spawned children to the live
queue, in order. -/
theorem foldl_runSTask (q : List STask) (s : SchedSt) (c : Nat) :
    q.foldl (runSTask c) s
      = ⟨s.queue ++ spawnedOf q, s.log ++ q.map (fun t => (c, t.tid))⟩ := by
  induction q generalizing s with
  | nil => simp [spawnedOf]
  | cons t rest ih =>
    cases t with
    | leaf i => simp [runSTask, ih, spawnedOf, STask.tid]
    | spawn i child => simp [runSTask, ih, spawnedOf, STask.tid]

/-- Claim C3: a drain cycle executes exactly the tasks that were queued
before the cycle began, in order (first conjunct: the log grows by one
entry per pre-cycle task, each tagged with the current cycle); the queue
is swapped for an empty one before any task runs, so everything enqueued
from inside a running task ends up as the next cycle's queue (second
conjunct) and is executed in a strictly later cycle (third conjunct). -/
theorem claim_C3 (s : SchedSt) (c : Nat) :
    (nextTick c s).log = s.log ++ s.queue.map (fun t => (c, t.tid))
    ∧ (nextTick c s).queue = spawnedOf s.queue
    ∧ (nextTick (c + 1) (nextTick c s)).log
        = s.log ++ s.queue.map (fun t => (c, t.tid))
          ++ (spawnedOf s.queue).map (fun t => (c + 1, t.tid)) := by
  simp [nextTick, foldl_runSTask]

end Sched

namespace Mach

theorem getR_pushNew (w : World) (pid : Nat) (r0 : RState)
    (h : pid < w.resolvers.length) :
    getR { w with resolvers := w.resolvers ++ [r0] } pid = getR w pid := by
  simp [getR, List.getD, List.getElem?_append, h]

theorem getR_pushNew_len (w : World) (r0 : RState) :
    getR { w with resolvers := w.resolvers ++ [r0] } w.resolvers.length = r0 := by
  simp [getR, List.getD, List.getElem?_append_right (Nat.le_refl _)]

theorem getR_setR_ne (w : World) (i j : Nat) (r : RState) (h : i ≠ j) :
    getR (setR w i r) j = getR w j := by
  simp [getR, setR, List.getD, List.getElem?_set_ne h]

theorem getR_setR_self (w : World) (i : Nat) (r : RState)
    (h : i < w.resolvers.length) :
    getR (setR w i r) i = r := by
  simp [getR, setR, List.getD, List.getElem?_set_eq_of_lt _ h]

theorem getR_fulfilledW_ne (w : World) (rid j : Nat) (v : JVal) (h : rid ≠ j) :
    getR (fulfilledW w rid v) j = getR w j := by
  simp only [fulfilledW]
  split_ifs <;> simp [getR, setR, List.getD, List.getElem?_set_ne h]

theorem getR_rejectedW_ne (w : World) (rid j : Nat) (v : JVal) (h : rid ≠ j) :
    getR (rejectedW w rid v) j = getR w j := by
  simp only [rejectedW]
  split_ifs <;> simp [getR, setR, List.getD, List.getElem?_set_ne h]

theorem getR_addCallbacksW_ne (w : World) (rid j : Nat) (cb eb : CB)
    (h : rid ≠ j) :
    getR (addCallbacksW w rid cb eb) j = getR w j := by
  simp only [addCallbacksW]
  split_ifs
  · split
    · rw [getR_fulfilledW_ne _ _ _ _ h]
      simp [getR, setR, List.getD, List.getElem?_set_ne h]
    · rw [getR_rejectedW_ne _ _ _ _ h]
      simp [getR, setR, List.getD, List.getElem?_set_ne h]
    · simp [getR, setR, List.getD, List.getElem?_set_ne h]
  · simp [getR, setR, List.getD, List.getElem?_set_ne h]

theorem fulfilledW_calls (w : World) (rid : Nat) (v : JVal) :
    (fulfilledW w rid v).calls = w.calls := by
  simp only [fulfilledW]
  split_ifs <;> rfl

theorem rejectedW_calls (w : World) (rid : Nat) (v : JVal) :
    (rejectedW w rid v).calls = w.calls := by
  simp only [rejectedW]
  split_ifs <;> rfl

theorem rejectW_calls (w : World) (rid : Nat) (v : JVal) :
    (rejectW w rid v).calls = w.calls := by
  simp only [rejectW]
  split_ifs with h
  · exact rejectedW_calls w rid v
  · rfl

theorem addCallbacksW_calls (w : World) (rid : Nat) (cb eb : CB) :
    (addCallbacksW w rid cb eb).calls = w.calls := by
  simp only [addCallbacksW]
  split_ifs
  · split
    · exact fulfilledW_calls _ rid _
    · exact rejectedW_calls _ rid _
    · rfl
  · rfl

theorem thenW_calls (w : World) (pid : Nat) (onF onR : ThenArg) :
    (thenW w pid onF onR).1.calls = w.calls := by
  simp only [thenW]
  exact addCallbacksW_calls _ pid _ _

theorem resolveW_calls (w : World) (rid : Nat) (v : JVal) :
    (resolveW w rid v).calls = w.calls := by
  simp only [resolveW]
  split_ifs
  · cases v <;> first
      | exact fulfilledW_calls _ rid _
      | exact thenW_calls _ _ _ _
  · rfl

theorem fulfilledW_length (w : World) (rid : Nat) (v : JVal) :
    (fulfilledW w rid v).resolvers.length = w.resolvers.length := by
  simp only [fulfilledW]
  split_ifs <;> simp [setR]

theorem rejectedW_length (w : World) (rid : Nat) (v : JVal) :
    (rejectedW w rid v).resolvers.length = w.resolvers.length := by
  simp only [rejectedW]
  split_ifs <;> simp [setR]

theorem addCallbacksW_length (w : World) (rid : Nat) (cb eb : CB) :
    (addCallbacksW w rid cb eb).resolvers.length = w.resolvers.length := by
  simp only [addCallbacksW]
  split_ifs
  · split
    · rw [fulfilledW_length]; simp [setR]
    · rw [rejectedW_length]; simp [setR]
    · simp [setR]
  · simp [setR]

/-- Claim C9: `Promise.race([])` produces a promise whose resolver is
pending, with an empty scheduler queue, no handler invocation and no
error report, and every number of further drain cycles leaves the world
exactly as it is: the promise never settles. -/
theorem claim_C9 :
    (getR c9World.1 c9World.2).state = .pending
    ∧ c9World.1.queue = []
    ∧ c9World.1.calls = []
    ∧ c9World.1.uncaught = []
    ∧ ∀ n, drainW^[n] c9World.1 = c9World.1 := by
  refine ⟨rfl, rfl, rfl, rfl, ?_⟩
  intro n
  induction n with
  | zero => rfl
  | succ n ih =>
    rw [Function.iterate_succ_apply]
    have he : drainW c9World.1 = c9World.1 := by
      show drainW ⟨[RState.init], [], [], [], [], []⟩ = _
      rfl
    rw [he, ih]

set_option maxHeartbeats 1600000 in
/-- Claim C8: `makeCallback`'s identity check: a user handler returning
the very promise its `then` call produced makes the wrapped callback
reject that promise with the self-resolution `TypeError` (first
conjunct, for any world); consequently in the concrete
`Promise.resolve(v).then(h)` pipeline where `h` returns the `then`
result, after the drain cycle the produced promise is rejected with the
`TypeError` rather than left pending. -/
theorem claim_C8 (w : World) (p hid hid2 : Nat) (arg : JVal) (v : Int) :
    runCB w (.wrapped p hid (.ret (.promise p))) arg
      = rejectW { w with calls := w.calls ++ [(hid, arg)] } p
          (.typeErr "Cannot resolve a promise with itself")
    ∧ (getR (drainW (c8World v hid2).1) (c8World v hid2).2).state = .rejected
    ∧ (getR (drainW (c8World v hid2).1) (c8World v hid2).2).value
        = .typeErr "Cannot resolve a promise with itself" := by
  refine ⟨?_, rfl, rfl⟩
  simp [runCB, isSelf]

/-- Claim C1: `then` allocates a fresh Promise/Resolver pair (the new id
is the next free store index, the store grows by one, and the new
resolver is freshly pending), registers the adapter-wrapped or raw
continuations on `this` resolver via `addCallbacks`, and returns the new
promise immediately: no handler runs synchronously (the ghost call log is
unchanged), on a pending resolver the two continuations are appended to
the two subscriber lists with nothing scheduled, and on an already
fulfilled resolver the fulfill continuation is included in the
re-triggered notification task instead of waiting. The embedding is
total, mirroring the absence of any throwing path in `then`. -/
theorem claim_C1 (w : World) (pid : Nat) (onF onR : ThenArg)
    (hpid : pid < w.resolvers.length) :
    (thenW w pid onF onR).2 = w.resolvers.length
    ∧ (thenW w pid onF onR).1.resolvers.length = w.resolvers.length + 1
    ∧ getR (thenW w pid onF onR).1 (thenW w pid onF onR).2 = RState.init
    ∧ (thenW w pid onF onR).1.calls = w.calls
    ∧ (∀ l1 l2, (getR w pid).state = .pending
        → (getR w pid).callbacks = some l1 → (getR w pid).errbacks = some l2
        → getR (thenW w pid onF onR).1 pid
            = { getR w pid with
                callbacks :=
                  some (l1 ++ [mkCB w.resolvers.length onF (.rawResolve w.resolvers.length)]),
                errbacks :=
                  some (l2 ++ [mkCB w.resolvers.length onR (.rawReject w.resolvers.length)]),
                chained := true }
          ∧ (thenW w pid onF onR).1.queue = w.queue)
    ∧ (∀ l1, (getR w pid).state = .fulfilled
        → (getR w pid).callbacks = some l1
        → (thenW w pid onF onR).1.queue
            = w.queue ++ [⟨l1 ++ [mkCB w.resolvers.length onF (.rawResolve w.resolvers.length)],
                (getR w pid).value, pid⟩]) := by
  have hne : pid ≠ w.resolvers.length := Nat.ne_of_lt hpid
  have hget : getR { w with resolvers := w.resolvers ++ [RState.init] } pid
      = getR w pid := getR_pushNew w pid RState.init hpid
  refine ⟨rfl, ?_, ?_, thenW_calls w pid onF onR, ?_, ?_⟩
  · simp only [thenW]
    rw [addCallbacksW_length]
    simp
  · simp only [thenW]
    rw [getR_addCallbacksW_ne _ _ _ _ _ hne]
    exact getR_pushNew_len w RState.init
  · intro l1 l2 hp hc he
    have hlt : pid < ({ w with resolvers := w.resolvers ++ [RState.init] } : World).resolvers.length := by
      simp
      omega
    constructor
    · simp only [thenW, addCallbacksW, hget, hc, he, hp]
      simp only [Option.isSome_some, Bool.or_self, if_pos]
      rw [getR_setR_self _ _ _ hlt]
      simp [hc, he]
    · simp only [thenW, addCallbacksW, hget, hc, he, hp]
      simp only [Option.isSome_some, Bool.or_self, if_pos]
      simp [setR]
  · intro l1 hf hc
    simp only [thenW, addCallbacksW, hget, hc, hf]
    simp only [Option.isSome_some, Bool.true_or, if_pos]
    have hlt : pid < ({ w with resolvers := w.resolvers ++ [RState.init] } : World).resolvers.length := by
      simp
      omega
    simp only [fulfilledW, getR_setR_self _ _ _ hlt, hf, hc]
    simp [setR]

/-- Witness for claim C1: `then` on the settled promise produced by
`Promise.resolve(0)` returns the fresh promise id 1. -/
theorem claim_C1_witness :
    (thenW (promiseResolveW World.init (.base 0)).1 0 .nofn .nofn).2 = 1 :=
  (claim_C1 (promiseResolveW World.init (.base 0)).1 0 .nofn .nofn
    (by decide)).1

theorem RState.userFree_parts (r : RState) (h : r.userFree = true) :
    ((r.callbacks.getD []).all CB.userFree = true)
    ∧ ((r.errbacks.getD []).all CB.userFree = true) := by
  simpa [RState.userFree, Bool.and_eq_true] using h

theorem getR_userFree (w : World) (rid : Nat) (h : World.UserFree w) :
    (getR w rid).userFree = true := by
  unfold getR List.getD
  cases hq : w.resolvers.get? rid with
  | none => rfl
  | some r =>
    simp only [hq, Option.getD_some]
    exact h.1 r (List.get?_mem hq)

theorem UserFree_setR (w : World) (rid : Nat) (r : RState)
    (hw : World.UserFree w) (hr : r.userFree = true) :
    World.UserFree (setR w rid r) := by
  refine ⟨?_, hw.2⟩
  intro x hx
  rcases List.mem_or_eq_of_mem_set hx with h1 | h1
  · exact hw.1 x h1
  · rw [h1]; exact hr

theorem UserFree_enqueue (w : World) (t : Task) (hw : World.UserFree w)
    (ht : t.userFree = true) :
    World.UserFree { w with queue := w.queue ++ [t] } := by
  refine ⟨hw.1, ?_⟩
  intro x hx
  rcases List.mem_append.mp hx with h1 | h1
  · exact hw.2 x h1
  · simp at h1; rw [h1]; exact ht

theorem UserFree_fulfilledW (w : World) (rid : Nat) (v : JVal)
    (hw : World.UserFree w) : World.UserFree (fulfilledW w rid v) := by
  have hr := getR_userFree w rid hw
  have hc : ((getR w rid).callbacks.getD []).all CB.userFree = true :=
    (RState.userFree_parts _ hr).1
  simp only [fulfilledW]
  split_ifs with h1 h2
  · exact UserFree_setR _ _ _
      (UserFree_enqueue _ _ hw (by simpa [Task.userFree] using hc))
      (by simp [RState.userFree])
  · exact UserFree_setR _ _ _ hw (by simpa [RState.userFree] using hr)
  · exact UserFree_setR _ _ _
      (UserFree_enqueue _ _ hw (by simpa [Task.userFree] using hc))
      (by simp [RState.userFree])
  · exact UserFree_setR _ _ _ hw (by simpa [RState.userFree] using hr)

theorem UserFree_rejectedW (w : World) (rid : Nat) (v : JVal)
    (hw : World.UserFree w) : World.UserFree (rejectedW w rid v) := by
  have hr := getR_userFree w rid hw
  have he : ((getR w rid).errbacks.getD []).all CB.userFree = true :=
    (RState.userFree_parts _ hr).2
  simp only [rejectedW]
  split_ifs with h1 h2
  · exact UserFree_setR _ _ _
      (UserFree_enqueue _ _ hw (by simpa [Task.userFree] using he))
      (by simp [RState.userFree])
  · exact UserFree_setR _ _ _ hw (by simpa [RState.userFree] using hr)
  · exact UserFree_setR _ _ _
      (UserFree_enqueue _ _ hw (by simpa [Task.userFree] using he))
      (by simp [RState.userFree])
  · exact UserFree_setR _ _ _ hw (by simpa [RState.userFree] using hr)

theorem UserFree_rejectW (w : World) (rid : Nat) (v : JVal)
    (hw : World.UserFree w) : World.UserFree (rejectW w rid v) := by
  simp only [rejectW]
  split_ifs with h
  · exact UserFree_rejectedW w rid v hw
  · exact hw

theorem optPush_userFree (o : Option (List CB)) (cb : CB)
    (ho : (o.getD []).all CB.userFree = true) (hcb : cb.userFree = true) :
    ((o.map (fun l => l ++ [cb])).getD []).all CB.userFree = true := by
  cases o with
  | none => rfl
  | some l => simp_all [List.all_append]

theorem UserFree_addCallbacksW (w : World) (rid : Nat) (cb eb : CB)
    (hw : World.UserFree w) (hcb : cb.userFree = true)
    (heb : eb.userFree = true) :
    World.UserFree (addCallbacksW w rid cb eb) := by
  have hr := getR_userFree w rid hw
  have hc := (RState.userFree_parts _ hr).1
  have he := (RState.userFree_parts _ hr).2
  have hr1 : ({ getR w rid with
      callbacks := (getR w rid).callbacks.map (fun l => l ++ [cb]),
      errbacks := (getR w rid).errbacks.map (fun l => l ++ [eb]),
      chained := true } : RState).userFree = true := by
    simp only [RState.userFree]
    rw [optPush_userFree _ _ hc hcb, optPush_userFree _ _ he heb]
    rfl
  have hr2 : ({ getR w rid with
      callbacks := (getR w rid).callbacks.map (fun l => l ++ [cb]),
      errbacks := (getR w rid).errbacks.map (fun l => l ++ [eb]) } : RState).userFree = true := by
    simp only [RState.userFree]
    rw [optPush_userFree _ _ hc hcb, optPush_userFree _ _ he heb]
    rfl
  simp only [addCallbacksW]
  split_ifs with h1
  · split
    · exact UserFree_fulfilledW _ _ _ (UserFree_setR _ _ _ hw hr1)
    · exact UserFree_rejectedW _ _ _ (UserFree_setR _ _ _ hw hr1)
    · exact UserFree_setR _ _ _ hw hr1
  · exact UserFree_setR _ _ _ hw hr2

theorem UserFree_pushNew (w : World) (hw : World.UserFree w) :
    World.UserFree { w with resolvers := w.resolvers ++ [RState.init] } := by
  refine ⟨?_, hw.2⟩
  intro x hx
  rcases List.mem_append.mp hx with h1 | h1
  · exact hw.1 x h1
  · simp at h1; rw [h1]; rfl

theorem UserFree_thenW (w : World) (pid : Nat) (onF onR : ThenArg)
    (hw : World.UserFree w) (hF : onF.userFree = true)
    (hR : onR.userFree = true) :
    World.UserFree (thenW w pid onF onR).1 := by
  simp only [thenW]
  apply UserFree_addCallbacksW _ _ _ _ (UserFree_pushNew w hw)
  · cases onF with
    | nofn => rfl
    | user hid h => simp [ThenArg.userFree] at hF
    | native c => simpa [ThenArg.userFree, mkCB, CB.userFree] using hF
  · cases onR with
    | nofn => rfl
    | user hid h => simp [ThenArg.userFree] at hR
    | native c => simpa [ThenArg.userFree, mkCB, CB.userFree] using hR

theorem UserFree_latchPush (w : World) (hw : World.UserFree w) :
    World.UserFree { w with latches := w.latches ++ [false] } :=
  ⟨hw.1, hw.2⟩

theorem UserFree_resolveW (w : World) (rid : Nat) (v : JVal)
    (hw : World.UserFree w) : World.UserFree (resolveW w rid v) := by
  simp only [resolveW]
  split_ifs with h
  · cases v with
    | promise pid =>
      exact UserFree_thenW _ _ _ _ (UserFree_latchPush w hw) rfl rfl
    | nullv => exact UserFree_fulfilledW _ _ _ hw
    | undef => exact UserFree_fulfilledW _ _ _ hw
    | base n => exact UserFree_fulfilledW _ _ _ hw
    | arr xs => exact UserFree_fulfilledW _ _ _ hw
    | typeErr s => exact UserFree_fulfilledW _ _ _ hw
  · exact hw

theorem UserFree_latchSet (w : World) (lid : Nat) (hw : World.UserFree w) :
    World.UserFree { w with latches := w.latches.set lid true } :=
  ⟨hw.1, hw.2⟩

theorem UserFree_allSet (w : World) (aid : Nat) (a : AllState)
    (hw : World.UserFree w) :
    World.UserFree { w with alls := w.alls.set aid a } :=
  ⟨hw.1, hw.2⟩

theorem UserFree_runCB (cb : CB) (w : World) (arg : JVal)
    (hw : World.UserFree w) (hcb : cb.userFree = true) :
    World.UserFree (runCB w cb arg) := by
  induction cb generalizing w arg with
  | rawResolve rid => exact UserFree_resolveW _ _ _ hw
  | rawReject rid => exact UserFree_rejectW _ _ _ hw
  | wrapped p hid h => simp [CB.userFree] at hcb
  | wrappedInner p inner ih =>
    simp only [runCB]
    exact UserFree_resolveW _ _ _ (ih w arg hw (by simpa [CB.userFree] using hcb))
  | allDone aid idx =>
    simp only [runCB]
    split_ifs with h
    · exact UserFree_resolveW _ _ _ (UserFree_allSet _ _ _ hw)
    · exact UserFree_allSet _ _ _ hw
  | innerRes lid rid =>
    simp only [runCB]
    split_ifs with h
    · exact hw
    · exact UserFree_resolveW _ _ _ (UserFree_latchSet _ _ hw)
  | innerRej lid rid =>
    simp only [runCB]
    split_ifs with h
    · exact hw
    · exact UserFree_rejectW _ _ _ (UserFree_latchSet _ _ hw)

theorem runCB_calls (cb : CB) (w : World) (arg : JVal)
    (hcb : cb.userFree = true) :
    (runCB w cb arg).calls = w.calls := by
  induction cb generalizing w arg with
  | rawResolve rid => exact resolveW_calls _ _ _
  | rawReject rid => exact rejectW_calls _ _ _
  | wrapped p hid h => simp [CB.userFree] at hcb
  | wrappedInner p inner ih =>
    simp only [runCB]
    rw [resolveW_calls, ih w arg (by simpa [CB.userFree] using hcb)]
  | allDone aid idx =>
    simp only [runCB]
    split_ifs with h
    · exact resolveW_calls _ _ _
    · rfl
  | innerRes lid rid =>
    simp only [runCB]
    split_ifs with h
    · rfl
    · exact resolveW_calls _ _ _
  | innerRej lid rid =>
    simp only [runCB]
    split_ifs with h
    · rfl
    · exact rejectW_calls _ _ _

theorem UserFree_foldCB (cbs : List CB) (w : World) (arg : JVal)
    (hw : World.UserFree w) (hcbs : cbs.all CB.userFree = true) :
    World.UserFree (cbs.foldl (fun w cb => runCB w cb arg) w)
    ∧ (cbs.foldl (fun w cb => runCB w cb arg) w).calls = w.calls := by
  induction cbs generalizing w with
  | nil => exact ⟨hw, rfl⟩
  | cons cb rest ih =>
    have h1 : cb.userFree = true ∧ rest.all CB.userFree = true := by
      simpa [List.all_cons, Bool.and_eq_true] using hcbs
    have step := ih (runCB w cb arg) (UserFree_runCB cb w arg hw h1.1) h1.2
    exact ⟨step.1, step.2.trans (runCB_calls cb w arg h1.1)⟩

theorem UserFree_runTask (w : World) (t : Task) (hw : World.UserFree w)
    (ht : t.userFree = true) :
    World.UserFree (runTask w t) ∧ (runTask w t).calls = w.calls := by
  simp only [runTask]
  have hf := UserFree_foldCB t.cbs w t.value hw ht
  split_ifs with h
  · exact ⟨⟨hf.1.1, hf.1.2⟩, hf.2⟩
  · exact hf

theorem UserFree_foldTask (ts : List Task) (w : World)
    (hw : World.UserFree w) (hts : ∀ t ∈ ts, t.userFree = true) :
    World.UserFree (ts.foldl runTask w)
    ∧ (ts.foldl runTask w).calls = w.calls := by
  induction ts generalizing w with
  | nil => exact ⟨hw, rfl⟩
  | cons t rest ih =>
    have h1 := hts t (by simp)
    have hstep := UserFree_runTask w t hw h1
    have step := ih (runTask w t) hstep.1 (fun x hx => hts x (by simp [hx]))
    exact ⟨step.1, step.2.trans hstep.2⟩

theorem UserFree_dropQueue (w : World) (hw : World.UserFree w) :
    World.UserFree { w with queue := ([] : List Task) } := by
  refine ⟨hw.1, ?_⟩
  intro t ht
  simp at ht

/-- From a user-free world, one drain cycle keeps the world user-free and
cannot add any entry to the user-handler call log. -/
theorem UserFree_drainW (w : World) (hw : World.UserFree w) :
    World.UserFree (drainW w) ∧ (drainW w).calls = w.calls := by
  simp only [drainW]
  exact UserFree_foldTask w.queue _ (UserFree_dropQueue w hw) hw.2

theorem UserFree_calls_push (w : World) (c : Nat × JVal)
    (hw : World.UserFree w) :
    World.UserFree { w with calls := w.calls ++ [c] } :=
  ⟨hw.1, hw.2⟩

/-- Running a `makeCallback`-wrapped user handler appends exactly one
entry to the ghost call log: the handler is invoked exactly once, with the
notified value as its sole argument. -/
theorem runCB_wrapped_calls (w : World) (p hid : Nat) (h : HBeh) (arg : JVal) :
    (runCB w (.wrapped p hid h) arg).calls = w.calls ++ [(hid, arg)] := by
  cases h with
  | thr e =>
    simp only [runCB]
    exact rejectW_calls _ _ _
  | ret u =>
    simp only [runCB]
    split_ifs
    · exact rejectW_calls _ _ _
    · exact resolveW_calls _ _ _
  | retArg =>
    simp only [runCB]
    split_ifs
    · exact rejectW_calls _ _ _
    · exact resolveW_calls _ _ _

theorem UserFree_runCB_wrapped (w : World) (p hid : Nat) (h : HBeh)
    (arg : JVal) (hw : World.UserFree w) :
    World.UserFree (runCB w (.wrapped p hid h) arg) := by
  cases h with
  | thr e =>
    simp only [runCB]
    exact UserFree_rejectW _ _ _ (UserFree_calls_push _ _ hw)
  | ret u =>
    simp only [runCB]
    split_ifs
    · exact UserFree_rejectW _ _ _ (UserFree_calls_push _ _ hw)
    · exact UserFree_resolveW _ _ _ (UserFree_calls_push _ _ hw)
  | retArg =>
    simp only [runCB]
    split_ifs
    · exact UserFree_rejectW _ _ _ (UserFree_calls_push _ _ hw)
    · exact UserFree_resolveW _ _ _ (UserFree_calls_push _ _ hw)

theorem c5_drain1 (v : Int) (hid : Nat) (h : HBeh) :
    (drainW (c5World v hid h)).calls = [(hid, .base v)]
    ∧ World.UserFree (drainW (c5World v hid h)) := by
  have hstep : drainW (c5World v hid h)
      = runTask ⟨[⟨some [], none, .fulfilled, .base v, true⟩, RState.init],
          [], [], [], [], []⟩ ⟨[.wrapped 1 hid h], .base v, 0⟩ := rfl
  have hfree : World.UserFree
      (⟨[⟨some [], none, .fulfilled, .base v, true⟩, RState.init],
        [], [], [], [], []⟩ : World) := by
    constructor
    · intro r hr
      simp only [List.mem_cons, List.not_mem_nil, or_false] at hr
      rcases hr with h1 | h1 <;> (rw [h1]; rfl)
    · intro t ht
      simp at ht
  rw [hstep]
  simp only [runTask, List.foldl_cons, List.foldl_nil]
  split_ifs with hu
  · exact ⟨runCB_wrapped_calls _ _ _ _ _,
      ⟨(UserFree_runCB_wrapped _ _ _ _ _ hfree).1,
       (UserFree_runCB_wrapped _ _ _ _ _ hfree).2⟩⟩
  · exact ⟨runCB_wrapped_calls _ _ _ _ _, UserFree_runCB_wrapped _ _ _ _ _ hfree⟩

/-- Claim C5: for every non-thenable value `v` and user handler `f`,
`Promise.resolve(v).then(f)` invokes `f` with argument `v` exactly once,
and only asynchronously: when `then` returns, the ghost call log is still
empty (nothing ran inside the synchronous block, even though the promise
was already settled when `then` was called), and after any positive number
of drain cycles the log contains exactly the single entry `(f, v)` — the
handler ran once during the first scheduler round-trip and is never run
again. -/
theorem claim_C5 (v : Int) (hid : Nat) (h : HBeh) (n : Nat) (hn : 1 ≤ n) :
    (c5World v hid h).calls = []
    ∧ (drainW^[n] (c5World v hid h)).calls = [(hid, .base v)] := by
  have base := c5_drain1 v hid h
  have aux : ∀ m, (drainW^[m] (drainW (c5World v hid h))).calls = [(hid, .base v)]
      ∧ World.UserFree (drainW^[m] (drainW (c5World v hid h))) := by
    intro m
    induction m with
    | zero => exact ⟨base.1, base.2⟩
    | succ k ih =>
      rw [Function.iterate_succ_apply']
      have hd := UserFree_drainW _ ih.2
      exact ⟨hd.2.trans ih.1, hd.1⟩
  refine ⟨rfl, ?_⟩
  obtain ⟨m, rfl⟩ : ∃ m, n = m + 1 := ⟨n - 1, by omega⟩
  rw [Function.iterate_succ_apply]
  exact (aux m).1

/-- Witness for claim C5 with value 7, handler id 0 and one drain
cycle. -/
theorem claim_C5_witness :
    (drainW^[1] (c5World 7 0 .retArg)).calls = [(0, .base 7)] :=
  (claim_C5 7 0 .retArg 1 (by decide)).2

theorem getD_append_len {m : Type} (l l2 : List m) (a b : m) :
    (l ++ a :: l2).getD l.length b = a := by
  simp [List.getD, List.getElem?_append_right (Nat.le_refl _)]

theorem set_append_len {m : Type} (l l2 : List m) (a b : m) :
    (l ++ a :: l2).set l.length b = l ++ b :: l2 := by
  induction l with
  | nil => rfl
  | cons x xs ih => simp [ih]

theorem fulfilledW_alls (w : World) (rid : Nat) (v : JVal) :
    (fulfilledW w rid v).alls = w.alls := by
  simp only [fulfilledW]
  split_ifs <;> rfl

theorem rejectedW_alls (w : World) (rid : Nat) (v : JVal) :
    (rejectedW w rid v).alls = w.alls := by
  simp only [rejectedW]
  split_ifs <;> rfl

theorem rejectW_alls (w : World) (rid : Nat) (v : JVal) :
    (rejectW w rid v).alls = w.alls := by
  simp only [rejectW]
  split_ifs with h
  · exact rejectedW_alls w rid v
  · rfl

theorem addCallbacksW_alls (w : World) (rid : Nat) (cb eb : CB) :
    (addCallbacksW w rid cb eb).alls = w.alls := by
  simp only [addCallbacksW]
  split_ifs
  · split
    · exact fulfilledW_alls _ rid _
    · exact rejectedW_alls _ rid _
    · rfl
  · rfl

theorem thenW_alls (w : World) (pid : Nat) (onF onR : ThenArg) :
    (thenW w pid onF onR).1.alls = w.alls := by
  simp only [thenW]
  exact addCallbacksW_alls _ pid _ _

theorem resolveW_alls (w : World) (rid : Nat) (v : JVal) :
    (resolveW w rid v).alls = w.alls := by
  simp only [resolveW]
  split_ifs
  · cases v <;> first
      | exact fulfilledW_alls _ rid _
      | exact thenW_alls _ _ _ _
  · rfl

theorem getR_rejectW_ne (w : World) (rid j : Nat) (v : JVal) (h : rid ≠ j) :
    getR (rejectW w rid v) j = getR w j := by
  simp only [rejectW]
  split_ifs with hp
  · exact getR_rejectedW_ne _ _ _ _ h
  · rfl

theorem getR_resolveW_plain_ne (w : World) (rid j : Nat) (v : JVal)
    (hv : ∀ q, v ≠ .promise q) (h : rid ≠ j) :
    getR (resolveW w rid v) j = getR w j := by
  simp only [resolveW]
  split_ifs with hp
  · cases v with
    | promise q => exact absurd rfl (hv q)
    | nullv => exact getR_fulfilledW_ne _ _ _ _ h
    | undef => exact getR_fulfilledW_ne _ _ _ _ h
    | base n => exact getR_fulfilledW_ne _ _ _ _ h
    | arr xs => exact getR_fulfilledW_ne _ _ _ _ h
    | typeErr m => exact getR_fulfilledW_ne _ _ _ _ h
  · rfl

theorem runTask_nocbs (w : World) (val : JVal) (rid : Nat) :
    (runTask w ⟨[], val, rid⟩).resolvers = w.resolvers
    ∧ (runTask w ⟨[], val, rid⟩).alls = w.alls := by
  simp only [runTask, List.foldl_nil]
  split_ifs <;> exact ⟨rfl, rfl⟩

theorem getElem_append_len {m : Type} (l l2 : List m) (a : m)
    (h : l.length < (l ++ a :: l2).length) :
    (l ++ a :: l2)[l.length] = a := by
  rw [List.getElem_append_right (Nat.le_refl _)]
  simp

theorem allStepW_base (aid p k : Nat) (x : Int) (w : World) :
    allStepW aid p w (k, .base x)
      = { w with
          resolvers := w.resolvers ++
            [⟨some [], none, .fulfilled, .base x, true⟩, RState.init],
          queue := w.queue ++
            [⟨[], .base x, w.resolvers.length⟩,
             ⟨[.wrappedInner (w.resolvers.length + 1) (.allDone aid k)], .base x,
               w.resolvers.length⟩] } := by
  simp [allStepW, promiseResolveW, resolveW, fulfilledW, thenW, addCallbacksW,
    mkCB, getR, setR, RState.init, getD_append_len, set_append_len,
    getElem_append_len, List.append_assoc]


theorem getR_congr (w1 w2 : World) (j : Nat)
    (h : w1.resolvers = w2.resolvers) : getR w1 j = getR w2 j := by
  unfold getR
  rw [h]

/-- The subscription loop of `Promise.all` over base-value elements: per
element it appends the settled wrapper and the pending `then` promise to
the store, and the wrapper's two notification tasks to the queue. -/
theorem allSetup (aid p : Nat) (xs : List Int) (k : Nat) (w : World) :
    ((xs.map JVal.base).enumFrom k).foldl (allStepW aid p) w
      = { w with resolvers := w.resolvers ++ elemResolvers xs,
                 queue := w.queue ++ elemTasks aid k w.resolvers.length xs } := by
  induction xs generalizing k w with
  | nil => simp [elemResolvers, elemTasks]
  | cons x rest ih =>
    rw [List.map_cons]
    rw [show List.enumFrom k (JVal.base x :: rest.map JVal.base)
        = (k, JVal.base x) :: List.enumFrom (k + 1) (rest.map JVal.base) from rfl]
    rw [List.foldl_cons, allStepW_base, ih]
    simp [elemResolvers, elemTasks, List.append_assoc]

theorem getR_fulfilledW_self (w : World) (rid : Nat) (v : JVal)
    (hpend : getR w rid = RState.init) (hlt : rid < w.resolvers.length) :
    getR (fulfilledW w rid v) rid
      = ⟨some [], none, .fulfilled, v, false⟩ := by
  simp only [fulfilledW, hpend]
  norm_num [RState.init]
  rw [getR_setR_self]
  simpa using hlt

theorem resolveW_plain_length (w : World) (rid : Nat) (v : JVal)
    (hv : ∀ q, v ≠ .promise q) :
    (resolveW w rid v).resolvers.length = w.resolvers.length := by
  simp only [resolveW]
  split_ifs with hp
  · cases v with
    | promise q => exact absurd rfl (hv q)
    | nullv => exact fulfilledW_length _ _ _
    | undef => exact fulfilledW_length _ _ _
    | base n => exact fulfilledW_length _ _ _
    | arr xs => exact fulfilledW_length _ _ _
    | typeErr m => exact fulfilledW_length _ _ _
  · rfl

theorem undef_not_promise : ∀ q, JVal.undef ≠ .promise q := by
  intro q h
  cases h

theorem arr_not_promise (l : List JVal) : ∀ q, JVal.arr l ≠ .promise q := by
  intro q h
  cases h

/-- Effect of one re-notification task of `Promise.all` over the shared
record: `oneDone(i)` writes the value into cell `i` and decrements
`remaining`; the aggregate is resolved exactly when the count reaches
zero, and is untouched otherwise. -/
theorem runTask_allDone (w : World) (q p i : Nat) (x : Int)
    (cells : List (Option JVal)) (m : Int)
    (halls : w.alls = [⟨cells, m, 0⟩])
    (hagg : getR w 0 = RState.init)
    (hlen : 0 < w.resolvers.length)
    (hq : q ≠ 0) :
    (runTask w ⟨[.wrappedInner q (.allDone 0 i)], .base x, p⟩).alls
        = [⟨cells.set i (some (.base x)), m - 1, 0⟩]
    ∧ (m - 1 ≠ 0 →
        getR (runTask w ⟨[.wrappedInner q (.allDone 0 i)], .base x, p⟩) 0
          = RState.init)
    ∧ (m - 1 = 0 →
        getR (runTask w ⟨[.wrappedInner q (.allDone 0 i)], .base x, p⟩) 0
          = ⟨some [], none, .fulfilled,
              .arr ((cells.set i (some (.base x))).map (fun c => c.getD .undef)),
              false⟩)
    ∧ (runTask w ⟨[.wrappedInner q (.allDone 0 i)], .base x, p⟩).resolvers.length
        = w.resolvers.length := by
  have hsingle_alls : ∀ (cb : CB) (val : JVal) (rid : Nat),
      (runTask w ⟨[cb], val, rid⟩).alls = (runCB w cb val).alls := by
    intro cb val rid
    simp only [runTask, List.foldl_cons, List.foldl_nil]
    split_ifs <;> rfl
  have hsingle_getR : ∀ (cb : CB) (val : JVal) (rid j : Nat),
      getR (runTask w ⟨[cb], val, rid⟩) j = getR (runCB w cb val) j := by
    intro cb val rid j
    simp only [runTask, List.foldl_cons, List.foldl_nil]
    split_ifs
    · exact getR_congr _ _ _ rfl
    · rfl
  have hsingle_len : ∀ (cb : CB) (val : JVal) (rid : Nat),
      (runTask w ⟨[cb], val, rid⟩).resolvers.length
        = (runCB w cb val).resolvers.length := by
    intro cb val rid
    simp only [runTask, List.foldl_cons, List.foldl_nil]
    split_ifs <;> rfl
  have hinner : runCB w (.wrappedInner q (.allDone 0 i)) (.base x)
      = resolveW (runCB w (.allDone 0 i) (.base x)) q .undef := rfl
  have hdone : runCB w (.allDone 0 i) (.base x)
      = (if m - 1 = 0 then
          resolveW { w with alls := [⟨cells.set i (some (.base x)), m - 1, 0⟩] } 0
            (.arr ((cells.set i (some (.base x))).map (fun c => c.getD .undef)))
         else { w with alls := [⟨cells.set i (some (.base x)), m - 1, 0⟩] }) := by
    simp [runCB, halls]
  by_cases hm : m - 1 = 0
  · have hw0 : getR { w with alls := [⟨cells.set i (some (.base x)), m - 1, 0⟩] } 0
        = RState.init := hagg
    have hres : runCB w (.allDone 0 i) (.base x)
        = fulfilledW { w with alls := [⟨cells.set i (some (.base x)), m - 1, 0⟩] } 0
            (.arr ((cells.set i (some (.base x))).map (fun c => c.getD .undef))) := by
      rw [hdone, if_pos hm]
      simp only [resolveW, hw0]
      norm_num [RState.init]
    refine ⟨?_, fun h => absurd hm h, fun _ => ?_, ?_⟩
    · rw [hsingle_alls, hinner, resolveW_alls, hres, fulfilledW_alls]
    · rw [hsingle_getR, hinner, getR_resolveW_plain_ne _ _ _ _ undef_not_promise hq,
        hres, getR_fulfilledW_self _ _ _ hw0 hlen]
    · rw [hsingle_len, hinner, resolveW_plain_length _ _ _ undef_not_promise,
        hres, fulfilledW_length]
  · have hres : runCB w (.allDone 0 i) (.base x)
        = { w with alls := [⟨cells.set i (some (.base x)), m - 1, 0⟩] } := by
      rw [hdone, if_neg hm]
    refine ⟨?_, fun _ => ?_, fun h => absurd h hm, ?_⟩
    · rw [hsingle_alls, hinner, resolveW_alls, hres]
    · rw [hsingle_getR, hinner, getR_resolveW_plain_ne _ _ _ _ undef_not_promise hq,
        hres]
      exact hagg
    · rw [hsingle_len, hinner, resolveW_plain_length _ _ _ undef_not_promise, hres]


/-- Draining the re-notification tasks of the `Promise.all` subscription
loop fills the result cells in index order and resolves the aggregate
(store index 0) with the completed, order-preserving results array when
the remaining-count reaches zero. -/
theorem allDrain (rest : List Int) (kept : List Int) (p0 : Nat) (w : World)
    (hp0 : 1 ≤ p0) (hlen : 0 < w.resolvers.length)
    (halls : w.alls = [⟨kept.map (fun y => some (JVal.base y))
        ++ List.replicate rest.length none, (rest.length : Int), 0⟩])
    (hagg : getR w 0 = RState.init) (hne : rest ≠ []) :
    getR ((elemTasks 0 kept.length p0 rest).foldl runTask w) 0
      = ⟨some [], none, .fulfilled, .arr ((kept ++ rest).map JVal.base), false⟩ := by
  induction rest generalizing kept p0 w with
  | nil => exact absurd rfl hne
  | cons x rest2 ih =>
    rw [show elemTasks 0 kept.length p0 (x :: rest2)
        = ⟨[], .base x, p0⟩
          :: ⟨[.wrappedInner (p0 + 1) (.allDone 0 kept.length)], .base x, p0⟩
          :: elemTasks 0 (kept.length + 1) (p0 + 2) rest2 from rfl]
    rw [List.foldl_cons, List.foldl_cons]
    have hn1 := runTask_nocbs w (.base x) p0
    have hlen1 : 0 < (runTask w ⟨[], .base x, p0⟩).resolvers.length := by
      rw [hn1.1]
      exact hlen
    have hagg1 : getR (runTask w ⟨[], .base x, p0⟩) 0 = RState.init :=
      (getR_congr _ _ _ hn1.1).trans hagg
    have halls1 : (runTask w ⟨[], .base x, p0⟩).alls
        = [⟨kept.map (fun y => some (JVal.base y))
            ++ List.replicate (rest2.length + 1) none, (rest2.length : Int) + 1, 0⟩] := by
      rw [hn1.2, halls]
      push_cast [List.length_cons]
      ring_nf
    have hq : p0 + 1 ≠ 0 := by omega
    obtain ⟨ha, hb, hc, hd⟩ := runTask_allDone (runTask w ⟨[], .base x, p0⟩)
      (p0 + 1) p0 kept.length x _ _ halls1 hagg1 hlen1 hq
    have hm1 : ((rest2.length : Int) + 1) - 1 = (rest2.length : Int) := by ring
    have hcells : (kept.map (fun y => some (JVal.base y))
          ++ List.replicate (rest2.length + 1) none).set kept.length (some (.base x))
        = (kept ++ [x]).map (fun y => some (JVal.base y))
          ++ List.replicate rest2.length none := by
      rw [List.replicate_succ]
      rw [show kept.length = (kept.map (fun y => some (JVal.base y))).length by simp]
      rw [set_append_len]
      simp
    cases rest2 with
    | nil =>
      have hz : ((List.length ([] : List Int) : Int) + 1) - 1 = 0 := by simp
      have hres := hc hz
      rw [show elemTasks 0 (kept.length + 1) (p0 + 2) [] = [] from rfl,
        List.foldl_nil, hres, hcells]
      simp [List.map_map, Function.comp]
    | cons y rest3 =>
      have hnz : ((List.length (y :: rest3) : Int) + 1) - 1 ≠ 0 := by
        push_cast [List.length_cons]
        omega
      have hagg2 := hb hnz
      have halls2 : (runTask (runTask w ⟨[], .base x, p0⟩)
            ⟨[.wrappedInner (p0 + 1) (.allDone 0 kept.length)], .base x, p0⟩).alls
          = [⟨(kept ++ [x]).map (fun y => some (JVal.base y))
              ++ List.replicate (y :: rest3).length none, ((y :: rest3).length : Int), 0⟩] := by
        rw [ha, hcells]
        push_cast [List.length_cons]
        ring_nf
      have hlen2 : 0 < (runTask (runTask w ⟨[], .base x, p0⟩)
            ⟨[.wrappedInner (p0 + 1) (.allDone 0 kept.length)], .base x, p0⟩).resolvers.length := by
        rw [hd]
        exact hlen1
      have hp02 : 1 ≤ p0 + 2 := by omega
      have hstep := ih (kept ++ [x]) (p0 + 2) _ hp02 hlen2 (by
          rw [halls2]) hagg2 (by simp)
      rw [show (kept ++ [x]).length = kept.length + 1 by simp] at hstep
      rw [hstep]
      simp


/-- End to end: `Promise.all` over any nonempty array of base values
resolves, after one drain cycle, with the array of those values in
original index order. -/
theorem allBaseEnd (xs : List Int) (hne : xs ≠ []) :
    getR (drainW (promiseAllW World.init (.arr (xs.map .base))).1) 0
      = ⟨some [], none, .fulfilled, .arr (xs.map .base), false⟩ := by
  have hpos : 0 < xs.length := List.length_pos.mpr hne
  have hsetup : (promiseAllW World.init (.arr (xs.map .base))).1
      = { resolvers := RState.init :: elemResolvers xs,
          queue := elemTasks 0 0 1 xs,
          latches := [], alls := [⟨List.replicate xs.length none, (xs.length : Int), 0⟩],
          calls := [], uncaught := [] } := by
    have hcond : ¬((xs.map JVal.base).length < 1) := by
      simp only [List.length_map]
      omega
    simp only [promiseAllW]
    rw [if_neg hcond]
    rw [show (xs.map JVal.base).enum = (xs.map JVal.base).enumFrom 0 from rfl]
    rw [allSetup]
    simp [World.init]
  rw [hsetup]
  have hdrain := allDrain xs [] 1 ⟨RState.init :: elemResolvers xs, [],
      [], [⟨List.replicate xs.length none, (xs.length : Int), 0⟩], [], []⟩
    (by omega) (by simp) (by simp) rfl hne
  simpa [drainW] using hdrain


theorem getR_rejectW_fresh (w : World) (v : JVal) :
    getR (rejectW { w with resolvers := w.resolvers ++ [RState.init] }
        w.resolvers.length v) w.resolvers.length
      = ⟨none, some [], .rejected, v, false⟩ := by
  have h1 : getR { w with resolvers := w.resolvers ++ [RState.init] }
      w.resolvers.length = RState.init := getR_pushNew_len w _
  have hlt : w.resolvers.length
      < ({ w with resolvers := w.resolvers ++ [RState.init] } : World).resolvers.length := by
    simp
  simp only [rejectW, rejectedW, h1]
  norm_num [RState.init]
  rw [getR_setR_self]
  simp

theorem allNonArray (w : World) (v : JVal) (hv : ∀ ys, v ≠ .arr ys) :
    getR (promiseAllW w v).1 (promiseAllW w v).2
      = ⟨none, some [], .rejected,
          .typeErr "Promise.all expects an array of values or promises", false⟩ := by
  cases v with
  | arr ys => exact absurd rfl (hv ys)
  | nullv => exact getR_rejectW_fresh w _
  | undef => exact getR_rejectW_fresh w _
  | base n => exact getR_rejectW_fresh w _
  | typeErr m => exact getR_rejectW_fresh w _
  | promise q => exact getR_rejectW_fresh w _

theorem allEmptyCheck :
    getR (promiseAllW World.init (.arr [])).1 (promiseAllW World.init (.arr [])).2
      = ⟨some [], none, .fulfilled, .arr [], false⟩ := rfl

theorem c7dCheck :
    (getR c7dWorld 1).state = .fulfilled
    ∧ (getR c7dWorld 1).value = .arr [.base 7, .base 2] := ⟨rfl, rfl⟩

theorem c7eCheck :
    (getR c7eWorld 1).state = .rejected
    ∧ (getR c7eWorld 1).value = .base 9 := ⟨rfl, rfl⟩

/-- Claim C7: `Promise.all` — (a) a non-array input yields immediate
rejection with a `TypeError`; (b) an empty array yields a promise resolved
with an empty array; (c) for every nonempty array of (base) values, each
element is wrapped through `Promise.resolve`, every fulfillment value is
written into the results array at the element's original index, and after
the drain cycle the aggregate is fulfilled with the values in index order,
having resolved exactly when the remaining-count reached zero; (d) index
order is preserved even when element 0 completes after element 1 (a
deferred settled in a later cycle); (e) the aggregate rejects with the
reason of the first element rejection. -/
theorem claim_C7 (w : World) (v : JVal) (xs : List Int)
    (hv : ∀ ys, v ≠ .arr ys) (hxs : xs ≠ []) :
    getR (promiseAllW w v).1 (promiseAllW w v).2
      = ⟨none, some [], .rejected,
          .typeErr "Promise.all expects an array of values or promises", false⟩
    ∧ getR (promiseAllW World.init (.arr [])).1 (promiseAllW World.init (.arr [])).2
      = ⟨some [], none, .fulfilled, .arr [], false⟩
    ∧ getR (drainW (promiseAllW World.init (.arr (xs.map .base))).1) 0
      = ⟨some [], none, .fulfilled, .arr (xs.map .base), false⟩
    ∧ (getR c7dWorld 1).state = .fulfilled
    ∧ (getR c7dWorld 1).value = .arr [.base 7, .base 2]
    ∧ (getR c7eWorld 1).state = .rejected
    ∧ (getR c7eWorld 1).value = .base 9 :=
  ⟨allNonArray w v hv, allEmptyCheck, allBaseEnd xs hxs,
    c7dCheck.1, c7dCheck.2, c7eCheck.1, c7eCheck.2⟩

/-- Witness for claim C7 with a numeric non-array input and the array
`[1, 2, 3]`. -/
theorem claim_C7_witness :
    getR (drainW (promiseAllW World.init (.arr ([1, 2, 3].map .base))).1) 0
      = ⟨some [], none, .fulfilled, .arr ([1, 2, 3].map .base), false⟩ :=
  (claim_C7 World.init (.base 0) [1, 2, 3]
    (fun ys h => JVal.noConfusion h) (by simp)).2.2.1

end Mach

